import Mathlib

/-!
Verification development for the pact-broker-mcp server.

The definitions below are a shallow embedding of the TypeScript sources
`src/pact-broker-client.ts`, `src/index.ts` and the tool-schema module.
HTTP fetches are external effects; each embedded operation receives the
decoded remote responses as explicit arguments and models the pure
computation the source performs on them.  JSON serialisation
(`JSON.stringify`) is an external library call and is passed in as a
function parameter where a handler embeds it in its output.
-/

namespace PactBrokerMcp

-- ---------------------------------------------------------------------------
-- Configuration and HTTP headers (pact-broker-client.ts, buildHeaders)
-- ---------------------------------------------------------------------------

/-- `PactBrokerConfig` from pact-broker-client.ts: base URL plus the two
optional credentials.  `none` models an absent (`undefined`) field. -/
structure PactBrokerConfig where
  brokerUrl : String
  authToken : Option String := none
  bearerToken : Option String := none
deriving DecidableEq

/-- JavaScript truthiness of an optional string: `undefined` and the empty
string are falsy, every other string is truthy. -/
def truthyStr : Option String → Bool
  | none => false
  | some s => !(s == "")

/-- The header record built by `buildHeaders`.  `Content-Type` and `Accept`
are always present; `Authorization` is optional. -/
structure RequestHeaders where
  contentType : String
  accept : String
  authorization : Option String := none
deriving DecidableEq

/-- `buildHeaders` (pact-broker-client.ts lines 186-199): fixed
`Content-Type`/`Accept` headers, then `Authorization` from the bearer token
if truthy, else from the basic-auth token if truthy, else omitted. -/
def buildHeaders (config : PactBrokerConfig) : RequestHeaders :=
  let headers : RequestHeaders :=
    { contentType := "application/json",
      accept := "application/hal+json, application/json" }
  if truthyStr config.bearerToken then
    { headers with authorization := some ("Bearer " ++ config.bearerToken.getD "") }
  else if truthyStr config.authToken then
    { headers with authorization := some ("Basic " ++ config.authToken.getD "") }
  else
    headers

-- ---------------------------------------------------------------------------
-- Data model (pact-broker-client.ts interfaces)
-- ---------------------------------------------------------------------------

/-- A `\x7b name: string \x7d` reference as used for `consumer`/`provider`. -/
structure NameRef where
  name : String
deriving DecidableEq

/-- A pacticipant.  Only `name` is read by the verified logic
(`listProviders` filters on it); the remaining interface fields are
pass-through response metadata. -/
structure Pacticipant where
  name : String
deriving DecidableEq

/-- A latest-pact entry (`PactVersion`): consumer and provider references
plus pass-through metadata. -/
structure PactVersion where
  consumer : NameRef
  provider : NameRef
  pactUrl : String := ""
  createdAt : Option String := none
deriving DecidableEq

/-- A modern (Pact v3/v4) provider-state entry; `params` is unread
metadata. -/
structure ProviderState where
  name : String
deriving DecidableEq

/-- One interaction of a pact, with the modern `providerStates` list and
the legacy (v1/v2) single `providerState` string, both optional. -/
structure Interaction where
  description : String := ""
  providerStates : Option (List ProviderState) := none
  providerState : Option String := none
deriving DecidableEq

/-- A pact document: consumer, provider and its interactions. -/
structure Pact where
  consumer : NameRef
  provider : NameRef
  interactions : List Interaction
deriving DecidableEq

/-- One provider state grouped with its consumers
(`ProviderStateWithConsumers`). -/
structure ProviderStateWithConsumers where
  name : String
  consumers : List String
deriving DecidableEq

-- ---------------------------------------------------------------------------
-- Client-side derivations (pact-broker-client.ts)
-- ---------------------------------------------------------------------------

/-- `listProviders` (lines 250-260): given the fetched pacticipants and the
fetched latest pacts, keep the pacticipants whose name is in the set of
provider names of the latest pacts.  The JS `Set`/`has` membership test is
exact string equality, embedded as `List.contains`. -/
def listProviders (allPacticipants : List Pacticipant)
    (latestPacts : List PactVersion) : List Pacticipant :=
  let providerNames := latestPacts.map fun p => p.provider.name
  allPacticipants.filter fun p => providerNames.contains p.name

/-- `getProviderPacts` (lines 305-313): filter the fetched latest pacts by
case-insensitive provider-name equality (`toLowerCase` on both sides). -/
def getProviderPacts (latestPacts : List PactVersion)
    (providerName : String) : List PactVersion :=
  latestPacts.filter fun p => p.provider.name.toLower == providerName.toLower

/-- `getConsumerPacts` (lines 318-326): filter the fetched latest pacts by
case-insensitive consumer-name equality. -/
def getConsumerPacts (latestPacts : List PactVersion)
    (consumerName : String) : List PactVersion :=
  latestPacts.filter fun p => p.consumer.name.toLower == consumerName.toLower

-- ---------------------------------------------------------------------------
-- extractProviderStates (pact-broker-client.ts lines 408-423)
-- ---------------------------------------------------------------------------

/-- `Set.add` on the insertion-ordered string set: append unless present. -/
def setAdd (set : List String) (s : String) : List String :=
  if s ∈ set then set else set ++ [s]

/-- The inner loop of `extractProviderStates`: add each modern state name
that passes the truthiness check `if (ps.name)`, i.e. is non-empty. -/
def addModernStates (acc : List String) (states : List ProviderState) : List String :=
  states.foldl (fun acc ps => if ps.name ≠ "" then setAdd acc ps.name else acc) acc

/-- One iteration of the outer loop of `extractProviderStates`: the modern
list first, then the legacy string under the truthiness check
`if (interaction.providerState)`. -/
def addInteractionStates (acc : List String) (interaction : Interaction) : List String :=
  let acc1 := addModernStates acc (interaction.providerStates.getD [])
  match interaction.providerState with
  | some s => if s ≠ "" then setAdd acc1 s else acc1
  | none => acc1

/-- The state set accumulated by `extractProviderStates` before sorting,
in insertion order. -/
def collectStates (pact : Pact) : List String :=
  pact.interactions.foldl addInteractionStates []

/-- Lexicographic comparison of character lists, the order used by the
JavaScript default `Array.prototype.sort()` on strings.  Written as a
structurally recursive boolean so that concrete calls evaluate. -/
def lexLeB : List Char → List Char → Bool
  | [], _ => true
  | _ :: _, [] => false
  | a :: as, b :: bs => if a < b then true else if a = b then lexLeB as bs else false

/-- Lexicographic `≤` on strings as compared by the JS default sort. -/
def jsStrLe (a b : String) : Bool := lexLeB a.data b.data

/-- `extractProviderStates` (lines 408-423): spread the set into an array
and sort it (`[...stateSet].sort()`, lexicographic string order). -/
def extractProviderStates (pact : Pact) : List String :=
  List.insertionSort (fun a b => jsStrLe a b = true) (collectStates pact)

/-- The state names carried by one interaction, as the claim's words
describe them: the name of every entry of the modern `providerStates` list
together with the legacy `providerState` string when the field is present,
with no further condition. -/
def interactionNames (i : Interaction) : List String :=
  (i.providerStates.getD []).map (fun ps => ps.name) ++ i.providerState.toList

/-- All state names of a pact, per the claim's words. -/
def pactStateNames (pact : Pact) : List String :=
  pact.interactions.flatMap interactionNames

/-- Modelled from the claim's words for comparison with
`extractProviderStates`: collect the name of every entry and every legacy
string into one set and return it lexicographically sorted. -/
def claimSortedStates (pact : Pact) : List String :=
  List.insertionSort (fun a b => a ≤ b) (pactStateNames pact).dedup

/-- The amended description: as `claimSortedStates` but keeping only the
non-empty names, matching the source's truthiness checks. -/
def amendedSortedStates (pact : Pact) : List String :=
  List.insertionSort (fun a b => a ≤ b) ((pactStateNames pact).filter (fun s => s ≠ "")).dedup

-- ---------------------------------------------------------------------------
-- Lemmas: the JS string comparison agrees with the lexicographic order
-- ---------------------------------------------------------------------------

theorem lexLeB_iff (as : List Char) :
    ∀ bs, lexLeB as bs = true ↔ ¬ List.Lex (· < ·) bs as := by
  induction as with
  | nil =>
    intro bs
    simp [lexLeB, List.Lex.not_nil_right]
  | cons a as ih =>
    intro bs
    cases bs with
    | nil =>
      simp only [lexLeB, Bool.false_eq_true, false_iff, not_not]
      exact List.Lex.nil
    | cons b bs =>
      simp only [lexLeB]
      by_cases h1 : a < b
      · simp only [if_pos h1, true_iff]
        intro hlex
        cases hlex with
        | cons h => exact absurd h1 (lt_irrefl _)
        | rel h => exact absurd h1 (asymm h)
      · rw [if_neg h1]
        by_cases h2 : a = b
        · subst h2
          rw [if_pos rfl, ih bs]
          exact (not_congr List.Lex.cons_iff).symm
        · rw [if_neg h2]
          simp only [Bool.false_eq_true, false_iff, not_not]
          have hba : b < a := by
            rcases lt_trichotomy a b with h | h | h
            · exact absurd h h1
            · exact absurd h h2
            · exact h
          exact List.Lex.rel hba

theorem jsStrLe_iff (a b : String) : jsStrLe a b = true ↔ a ≤ b := by
  rw [jsStrLe, lexLeB_iff]
  change ¬ b.toList < a.toList ↔ _
  rw [String.le_iff_toList_le]
  exact not_lt

instance : IsTotal String fun a b => jsStrLe a b = true :=
  ⟨fun a b => by
    rw [jsStrLe_iff, jsStrLe_iff]
    exact le_total a b⟩

instance : IsTrans String fun a b => jsStrLe a b = true :=
  ⟨fun a b c hab hbc => by
    rw [jsStrLe_iff] at hab hbc ⊢
    exact le_trans hab hbc⟩

-- ---------------------------------------------------------------------------
-- Lemmas: membership and distinctness of the accumulated state set
-- ---------------------------------------------------------------------------

theorem mem_setAdd {t : String} {l : List String} {s : String} :
    t ∈ setAdd l s ↔ t ∈ l ∨ t = s := by
  unfold setAdd
  split_ifs with h
  · constructor
    · exact Or.inl
    · rintro (ht | rfl)
      · exact ht
      · exact h
  · simp

theorem nodup_setAdd {l : List String} {s : String} (h : l.Nodup) :
    (setAdd l s).Nodup := by
  unfold setAdd
  split_ifs with hs
  · exact h
  · simp [List.nodup_append, h, hs]

theorem mem_addModernStates {t : String} :
    ∀ (states : List ProviderState) (acc : List String),
      t ∈ addModernStates acc states ↔
        t ∈ acc ∨ (t ≠ "" ∧ t ∈ states.map fun ps => ps.name) := by
  intro states
  induction states with
  | nil => intro acc; simp [addModernStates]
  | cons ps rest ih =>
    intro acc
    have hstep : addModernStates acc (ps :: rest) =
        addModernStates (if ps.name ≠ "" then setAdd acc ps.name else acc) rest := rfl
    rw [hstep, ih, List.map_cons]
    by_cases h : ps.name = ""
    · rw [if_neg (not_not_intro h)]
      constructor
      · rintro (ht | ⟨hne, ht⟩)
        · exact Or.inl ht
        · exact Or.inr ⟨hne, List.mem_cons_of_mem _ ht⟩
      · rintro (ht | ⟨hne, ht⟩)
        · exact Or.inl ht
        · rcases List.mem_cons.mp ht with heq | ht2
          · exact absurd (heq.trans h) hne
          · exact Or.inr ⟨hne, ht2⟩
    · rw [if_pos h]
      constructor
      · rintro (ht | ⟨hne, ht⟩)
        · rcases mem_setAdd.mp ht with ht1 | rfl
          · exact Or.inl ht1
          · exact Or.inr ⟨h, List.mem_cons_self _ _⟩
        · exact Or.inr ⟨hne, List.mem_cons_of_mem _ ht⟩
      · rintro (ht | ⟨hne, ht⟩)
        · exact Or.inl (mem_setAdd.mpr (Or.inl ht))
        · rcases List.mem_cons.mp ht with heq | ht2
          · exact Or.inl (mem_setAdd.mpr (Or.inr heq))
          · exact Or.inr ⟨hne, ht2⟩

theorem nodup_addModernStates :
    ∀ (states : List ProviderState) (acc : List String),
      acc.Nodup → (addModernStates acc states).Nodup := by
  intro states
  induction states with
  | nil => intro acc h; exact h
  | cons ps rest ih =>
    intro acc h
    have hstep : addModernStates acc (ps :: rest) =
        addModernStates (if ps.name ≠ "" then setAdd acc ps.name else acc) rest := rfl
    rw [hstep]
    apply ih
    split_ifs
    · exact nodup_setAdd h
    · exact h

theorem mem_addInteractionStates {t : String} (acc : List String) (i : Interaction) :
    t ∈ addInteractionStates acc i ↔ t ∈ acc ∨ (t ≠ "" ∧ t ∈ interactionNames i) := by
  unfold addInteractionStates interactionNames
  cases hps : i.providerState with
  | none =>
    show t ∈ addModernStates acc (i.providerStates.getD []) ↔ _
    rw [mem_addModernStates]
    simp
  | some s =>
    show t ∈ (if s ≠ "" then setAdd (addModernStates acc (i.providerStates.getD [])) s
        else addModernStates acc (i.providerStates.getD [])) ↔ _
    simp only [Option.toList_some]
    by_cases hs : s = ""
    · rw [if_neg (not_not_intro hs), mem_addModernStates]
      constructor
      · rintro (ht | ⟨hne, ht⟩)
        · exact Or.inl ht
        · exact Or.inr ⟨hne, List.mem_append_left _ ht⟩
      · rintro (ht | ⟨hne, ht⟩)
        · exact Or.inl ht
        · rcases List.mem_append.mp ht with ht1 | ht1
          · exact Or.inr ⟨hne, ht1⟩
          · exact absurd ((List.mem_singleton.mp ht1).trans hs) hne
    · rw [if_pos hs]
      constructor
      · intro ht
        rcases mem_setAdd.mp ht with ht1 | rfl
        · rcases (mem_addModernStates _ _).mp ht1 with ht2 | ⟨hne, ht2⟩
          · exact Or.inl ht2
          · exact Or.inr ⟨hne, List.mem_append_left _ ht2⟩
        · exact Or.inr ⟨hs, List.mem_append_right _ (List.mem_singleton.mpr rfl)⟩
      · rintro (ht | ⟨hne, ht⟩)
        · exact mem_setAdd.mpr (Or.inl ((mem_addModernStates _ _).mpr (Or.inl ht)))
        · rcases List.mem_append.mp ht with ht1 | ht1
          · exact mem_setAdd.mpr (Or.inl ((mem_addModernStates _ _).mpr (Or.inr ⟨hne, ht1⟩)))
          · exact mem_setAdd.mpr (Or.inr (List.mem_singleton.mp ht1))

theorem nodup_addInteractionStates (acc : List String) (i : Interaction)
    (h : acc.Nodup) : (addInteractionStates acc i).Nodup := by
  unfold addInteractionStates
  cases hps : i.providerState with
  | none => exact nodup_addModernStates _ _ h
  | some s =>
    show (if s ≠ "" then setAdd (addModernStates acc (i.providerStates.getD [])) s
        else addModernStates acc (i.providerStates.getD [])).Nodup
    split_ifs
    · exact nodup_setAdd (nodup_addModernStates _ _ h)
    · exact nodup_addModernStates _ _ h

theorem mem_foldl_addInteractionStates {t : String} :
    ∀ (is : List Interaction) (acc : List String),
      t ∈ is.foldl addInteractionStates acc ↔
        t ∈ acc ∨ (t ≠ "" ∧ t ∈ is.flatMap interactionNames) := by
  intro is
  induction is with
  | nil => intro acc; simp
  | cons i rest ih =>
    intro acc
    rw [List.foldl_cons, ih, mem_addInteractionStates]
    simp only [List.flatMap_cons, List.mem_append]
    constructor
    · rintro ((ht | ht) | ht)
      · exact Or.inl ht
      · exact Or.inr ⟨ht.1, Or.inl ht.2⟩
      · exact Or.inr ⟨ht.1, Or.inr ht.2⟩
    · rintro (ht | ⟨hne, ht | ht⟩)
      · exact Or.inl (Or.inl ht)
      · exact Or.inl (Or.inr ⟨hne, ht⟩)
      · exact Or.inr ⟨hne, ht⟩

theorem nodup_foldl_addInteractionStates :
    ∀ (is : List Interaction) (acc : List String),
      acc.Nodup → (is.foldl addInteractionStates acc).Nodup := by
  intro is
  induction is with
  | nil => intro acc h; exact h
  | cons i rest ih => intro acc h; exact ih _ (nodup_addInteractionStates _ _ h)

theorem mem_collectStates {t : String} (pact : Pact) :
    t ∈ collectStates pact ↔ t ≠ "" ∧ t ∈ pactStateNames pact := by
  unfold collectStates pactStateNames
  rw [mem_foldl_addInteractionStates]
  simp

theorem nodup_collectStates (pact : Pact) : (collectStates pact).Nodup :=
  nodup_foldl_addInteractionStates _ _ List.nodup_nil

theorem mem_extractProviderStates {t : String} (pact : Pact) :
    t ∈ extractProviderStates pact ↔ t ≠ "" ∧ t ∈ pactStateNames pact := by
  rw [extractProviderStates, List.mem_insertionSort, mem_collectStates]

theorem nodup_extractProviderStates (pact : Pact) :
    (extractProviderStates pact).Nodup :=
  (List.perm_insertionSort _ _).nodup_iff.mpr (nodup_collectStates pact)

theorem sorted_extractProviderStates (pact : Pact) :
    List.Sorted (· ≤ ·) (extractProviderStates pact) := by
  have h := List.sorted_insertionSort (fun a b => jsStrLe a b = true) (collectStates pact)
  exact h.imp fun hab => (jsStrLe_iff _ _).mp hab

theorem extract_eq_amended (pact : Pact) :
    extractProviderStates pact = amendedSortedStates pact := by
  unfold amendedSortedStates
  refine List.eq_of_perm_of_sorted ?_ (sorted_extractProviderStates pact)
    (List.sorted_insertionSort _ _)
  have h1 : List.Perm (extractProviderStates pact) (collectStates pact) :=
    List.perm_insertionSort _ _
  have h2 : List.Perm (amendedSortedStates pact)
      (((pactStateNames pact).filter fun s => s ≠ "").dedup) :=
    List.perm_insertionSort _ _
  refine h1.trans (List.Perm.trans ?_ h2.symm)
  rw [List.perm_ext_iff_of_nodup (nodup_collectStates pact) (List.nodup_dedup _)]
  intro t
  rw [mem_collectStates, List.mem_dedup, List.mem_filter]
  simp [and_comm]

-- ---------------------------------------------------------------------------
-- MCP tool results (index.ts)
-- ---------------------------------------------------------------------------

/-- The envelope returned by the tool dispatcher: every handler in index.ts
returns a single text content item, with `isError` set only on the error
paths (an absent `isError` field is falsy, modelled as `false`). -/
structure ToolResult where
  text : String
  isError : Bool := false
deriving DecidableEq

/-- The `summary` part of `CanIDeployResponse`. -/
structure CanIDeploySummary where
  deployable : Bool
  reason : String
  unknown : Option Nat := none
deriving DecidableEq

/-- A consumer/provider reference with a version number, as in the matrix
rows of `CanIDeployResponse`. -/
structure MatrixVersionRef where
  name : String
  version : String
deriving DecidableEq

/-- A matrix row's verification result. -/
structure MatrixVerification where
  success : Bool
  verifiedAt : Option String := none
deriving DecidableEq

/-- One supporting matrix row of `CanIDeployResponse`. -/
structure MatrixRow where
  consumer : MatrixVersionRef
  provider : MatrixVersionRef
  verificationResult : Option MatrixVerification := none
  pactCreatedAt : Option String := none
deriving DecidableEq

/-- `CanIDeployResponse` (pact-broker-client.ts): the verdict summary plus
the optional supporting matrix, passed through verbatim. -/
structure CanIDeployResponse where
  summary : CanIDeploySummary
  matrix : Option (List MatrixRow) := none
deriving DecidableEq

/-- The text built by the `can_i_deploy` handler (index.ts lines 428-452):
emoji and status from `summary.deployable`, then the reason, then a blank
line, then `JSON.stringify(result, null, 2)` (the serialiser is external
and passed in as `jsonOf`). -/
def canIDeployText (jsonOf : CanIDeployResponse → String)
    (result : CanIDeployResponse) : String :=
  let deployable := result.summary.deployable
  let emoji := if deployable then "✅" else "❌"
  let status := if deployable then "CAN DEPLOY" else "CANNOT DEPLOY"
  emoji ++ " " ++ status ++ "\n\n" ++ result.summary.reason ++ "\n\n" ++ jsonOf result

/-- The envelope returned by the `can_i_deploy` handler. -/
def canIDeployHandler (jsonOf : CanIDeployResponse → String)
    (result : CanIDeployResponse) : ToolResult :=
  { text := canIDeployText jsonOf result }

/-- The `get_provider_states` handler (index.ts lines 266-293), after the
remote fetch: an empty result set short-circuits to the plain-text
not-found message, otherwise the JSON payload is returned. -/
def getProviderStatesHandler (jsonOf : List ProviderStateWithConsumers → String)
    (providerName : String)
    (statesWithConsumer : List ProviderStateWithConsumers) : ToolResult :=
  if statesWithConsumer.length = 0 then
    { text := "No pacts found for provider \"" ++ providerName ++ "\"." }
  else
    { text := jsonOf statesWithConsumer }

-- ---------------------------------------------------------------------------
-- Dispatcher and error handling (index.ts CallToolRequestSchema handler)
-- ---------------------------------------------------------------------------

/-- One zod validation issue: a field path and a message. -/
structure ZodIssue where
  path : List String
  message : String
deriving DecidableEq

/-- The errors the dispatcher's catch block distinguishes: a `ZodError`
with its issue list, or any other thrown error with its message. -/
inductive ThrownError where
  | zod (issues : List ZodIssue)
  | other (message : String)
deriving DecidableEq

/-- The `message` computed by the catch block (index.ts lines 617-623):
for a `ZodError`, the issues are rendered as `<path joined with .>:
<message>` and joined with `, ` behind the `Invalid arguments: ` header. -/
def errorMessage : ThrownError → String
  | .zod issues =>
      "Invalid arguments: " ++
        String.intercalate ", "
          (issues.map fun issue => String.intercalate "." issue.path ++ ": " ++ issue.message)
  | .other m => m

/-- The error envelope returned by the catch block (index.ts lines
625-628): the message behind an `Error: ` header, with `isError` set. -/
def errorEnvelope (err : ThrownError) : ToolResult :=
  { text := "Error: " ++ errorMessage err, isError := true }

/-- Modelled zod object parsing for the argument schemas of tools.ts: each
schema is a set of required string-valued fields, and each required field
missing from the argument object produces one issue whose path is that
field.  The library's message text for a missing required field is
rendered as `Required`; only the path matters to the verified claims. -/
def zodParseIssues (required : List String)
    (args : List (String × String)) : List ZodIssue :=
  (required.filter fun f => (args.lookup f).isNone).map
    fun f => { path := [f], message := "Required" }

/-- The registered tool names with their required argument fields, from
the switch cases of index.ts and the schemas of tools.ts. -/
def toolRegistry : List (String × List String) :=
  [ ("list_pacticipants", []),
    ("list_providers", []),
    ("get_pacticipant", ["name"]),
    ("get_provider_states", ["provider_name"]),
    ("get_provider_pacts", ["provider_name"]),
    ("get_consumer_pacts", ["consumer_name"]),
    ("get_pact", ["consumer_name", "provider_name"]),
    ("get_pact_version", ["consumer_name", "provider_name", "consumer_version"]),
    ("get_latest_verification_results_for_pact_version",
      ["consumer_name", "provider_name", "pact_version"]),
    ("get_previous_distinct_pact", ["consumer_name", "provider_name", "consumer_version"]),
    ("can_i_deploy", ["pacticipant", "version", "environment"]),
    ("list_environments", []),
    ("get_pacticipant_branches", ["name"]),
    ("get_pacticipant_branch_latest_version", ["pacticipant", "branch"]),
    ("get_currently_deployed_versions", ["environment"]),
    ("get_currently_supported_versions", ["environment"]) ]

/-- The dispatch skeleton of the `CallToolRequestSchema` handler
(index.ts lines 191-630).  A name outside the registry hits the switch's
default case and yields the unknown-tool error envelope; a registered name
first has its arguments validated (a thrown `ZodError` is converted by the
catch block), then runs its body — config reading, remote calls and
reshaping, abstracted as `proceed`, whose thrown errors the same catch
block converts.  The function is total: no error escapes the boundary. -/
def dispatch (proceed : String → List (String × String) → Except ThrownError ToolResult)
    (name : String) (args : List (String × String)) : ToolResult :=
  match toolRegistry.lookup name with
  | none => { text := "Unknown tool: \"" ++ name ++ "\"", isError := true }
  | some required =>
    match zodParseIssues required args with
    | [] =>
      match proceed name args with
      | .ok result => result
      | .error err => errorEnvelope err
    | issue :: rest => errorEnvelope (.zod (issue :: rest))

-- ---------------------------------------------------------------------------
-- Concrete pacts used by the claims about extractProviderStates
-- ---------------------------------------------------------------------------

/-- The pact of the spec's worked example: one interaction with legacy
`providerState: "a"`, one with modern `providerStates: [b, a]`. -/
def examplePactAB : Pact :=
  { consumer := ⟨"C"⟩, provider := ⟨"P"⟩,
    interactions :=
      [ { description := "i1", providerState := some "a" },
        { description := "i2", providerStates := some [⟨"b"⟩, ⟨"a"⟩] } ] }

/-- A pact whose only state entry carries the empty string as its name. -/
def emptyNamePact : Pact :=
  { consumer := ⟨"C"⟩, provider := ⟨"P"⟩,
    interactions := [{ description := "d", providerStates := some [⟨""⟩] }] }

/-- A pact carrying the empty string both as a modern state name and as
the legacy state, next to an ordinary state name. -/
def emptyAndNamedPact : Pact :=
  { consumer := ⟨"C"⟩, provider := ⟨"P"⟩,
    interactions :=
      [ { description := "d", providerStates := some [⟨""⟩, ⟨"s"⟩],
          providerState := some "" } ] }

-- ---------------------------------------------------------------------------
-- Claim theorems
-- ---------------------------------------------------------------------------

/-- C1: for every fetched pacticipant list and latest-pact list,
`listProviders` returns exactly the sub-list of pacticipants whose name is
the provider name of at least one latest pact; and for pacticipants
[A, B, C] with the single latest pact (consumer A, provider B) the result
is exactly [B]. -/
theorem C1_listProviders_exact_sublist :
    (∀ (ps : List Pacticipant) (pacts : List PactVersion),
        (listProviders ps pacts).Sublist ps ∧
        ∀ p : Pacticipant, p ∈ listProviders ps pacts ↔
          p ∈ ps ∧ ∃ q ∈ pacts, q.provider.name = p.name) ∧
    listProviders [⟨"A"⟩, ⟨"B"⟩, ⟨"C"⟩]
      [{ consumer := ⟨"A"⟩, provider := ⟨"B"⟩ }] = [⟨"B"⟩] := by
  refine ⟨fun ps pacts => ⟨List.filter_sublist _, fun p => ?_⟩, by decide⟩
  simp only [listProviders, List.mem_filter, List.elem_iff, List.mem_map]

/-- C9: `listProviders` compares provider names to pacticipant names with
exact, case-sensitive string equality; a pacticipant whose name differs
from every pact's provider name only in letter case is excluded. -/
theorem C9_listProviders_case_sensitive :
    (∀ (ps : List Pacticipant) (pacts : List PactVersion) (p : Pacticipant),
        p ∈ listProviders ps pacts ↔
          p ∈ ps ∧ p.name ∈ pacts.map fun q => q.provider.name) ∧
    listProviders [⟨"orders"⟩]
      [{ consumer := ⟨"web"⟩, provider := ⟨"Orders"⟩ }] = [] := by
  refine ⟨fun ps pacts p => ?_, by decide⟩
  simp only [listProviders, List.mem_filter, List.elem_iff]

/-- C8: `getProviderPacts` keeps exactly the latest pacts whose provider
name equals the argument after lowercasing both sides, and
`getConsumerPacts` does the same on the consumer name. -/
theorem C8_case_insensitive_pact_filtering :
    ∀ (pacts : List PactVersion) (searched : String) (p : PactVersion),
      (p ∈ getProviderPacts pacts searched ↔
        p ∈ pacts ∧ p.provider.name.toLower = searched.toLower) ∧
      (p ∈ getConsumerPacts pacts searched ↔
        p ∈ pacts ∧ p.consumer.name.toLower = searched.toLower) := by
  intro pacts searched p
  constructor
  · simp only [getProviderPacts, List.mem_filter, beq_iff_eq]
  · simp only [getConsumerPacts, List.mem_filter, beq_iff_eq]

/-- C7: the `Authorization` header is `Bearer <token>` whenever a bearer
token is configured (a non-empty string, regardless of any basic
credential), `Basic <token>` when only a basic credential is configured,
and absent when neither is.  An empty-string credential is falsy in the
source and counts as not configured. -/
theorem C7_authorization_header :
    ∀ cfg : PactBrokerConfig,
      (∀ t, cfg.bearerToken = some t → t ≠ "" →
        (buildHeaders cfg).authorization = some ("Bearer " ++ t)) ∧
      (truthyStr cfg.bearerToken = false →
        ∀ a, cfg.authToken = some a → a ≠ "" →
          (buildHeaders cfg).authorization = some ("Basic " ++ a)) ∧
      (truthyStr cfg.bearerToken = false → truthyStr cfg.authToken = false →
        (buildHeaders cfg).authorization = none) := by
  intro cfg
  refine ⟨?_, ?_, ?_⟩
  · intro t ht hne
    simp [buildHeaders, truthyStr, ht, hne]
  · intro hb a ha hane
    have hat : truthyStr (some a) = true := by simp [truthyStr, hane]
    simp [buildHeaders, hb, ha, hat]
  · intro hb ha
    simp [buildHeaders, hb, ha]

/-- Witness for C7 at concrete configurations: both credentials present
(bearer wins), basic only, and neither. -/
theorem C7_witness :
    (buildHeaders
      { brokerUrl := "u", authToken := some "basic", bearerToken := some "btok" }).authorization =
        some ("Bearer " ++ "btok") ∧
    (buildHeaders { brokerUrl := "u", authToken := some "basic" }).authorization =
      some ("Basic " ++ "basic") ∧
    (buildHeaders { brokerUrl := "u" }).authorization = none :=
  ⟨(C7_authorization_header
      { brokerUrl := "u", authToken := some "basic", bearerToken := some "btok" }).1
        "btok" rfl (by decide),
   (C7_authorization_header { brokerUrl := "u", authToken := some "basic" }).2.1
     rfl "basic" rfl (by decide),
   (C7_authorization_header { brokerUrl := "u" }).2.2 rfl rfl⟩

/-- C3: a successful `can_i_deploy` call returns the one-line verdict
(check glyph and CAN DEPLOY, or cross glyph and CANNOT DEPLOY, per the
summary's deployable flag), then the summary's reason, a blank line, and
the full verdict JSON. -/
theorem C3_can_i_deploy_text :
    ∀ (jsonOf : CanIDeployResponse → String) (result : CanIDeployResponse),
      (canIDeployHandler jsonOf result).isError = false ∧
      (result.summary.deployable = true →
        (canIDeployHandler jsonOf result).text =
          "✅ CAN DEPLOY" ++ "\n\n" ++ result.summary.reason ++ "\n\n" ++ jsonOf result) ∧
      (result.summary.deployable = false →
        (canIDeployHandler jsonOf result).text =
          "❌ CANNOT DEPLOY" ++ "\n\n" ++ result.summary.reason ++ "\n\n" ++ jsonOf result) := by
  intro jsonOf result
  refine ⟨rfl, ?_, ?_⟩ <;> intro h <;> simp [canIDeployHandler, canIDeployText, h]

/-- Witness for C3: a remote verdict with deployable false and reason r
produces the cannot-deploy text followed by r and the JSON. -/
theorem C3_witness :
    (canIDeployHandler (fun _ => "JSON")
      { summary := { deployable := false, reason := "r" } }).text =
        "❌ CANNOT DEPLOY" ++ "\n\n" ++ "r" ++ "\n\n" ++ "JSON" ∧
    (canIDeployHandler (fun _ => "JSON")
      { summary := { deployable := true, reason := "ok" } }).text =
        "✅ CAN DEPLOY" ++ "\n\n" ++ "ok" ++ "\n\n" ++ "JSON" :=
  ⟨(C3_can_i_deploy_text (fun _ => "JSON") _).2.2 rfl,
   (C3_can_i_deploy_text (fun _ => "JSON") _).2.1 rfl⟩

/-- C4: `get_provider_states` with an empty remote result set returns a
non-error envelope whose text is exactly the not-found message naming the
provider (and in particular not the empty JSON array), while a non-empty
result set returns the JSON payload. -/
theorem C4_provider_states_empty_message :
    ∀ (jsonOf : List ProviderStateWithConsumers → String) (providerName : String),
      getProviderStatesHandler jsonOf providerName [] =
        { text := "No pacts found for provider \"" ++ providerName ++ "\".",
          isError := false } ∧
      (getProviderStatesHandler jsonOf providerName []).text ≠ "[]" ∧
      ∀ (s : ProviderStateWithConsumers) (rest : List ProviderStateWithConsumers),
        getProviderStatesHandler jsonOf providerName (s :: rest) =
          { text := jsonOf (s :: rest), isError := false } := by
  intro jsonOf providerName
  refine ⟨rfl, ?_, fun s rest => rfl⟩
  intro h
  have hl := congrArg String.length h
  rw [show (getProviderStatesHandler jsonOf providerName []).text =
      "No pacts found for provider \"" ++ providerName ++ "\"." from rfl] at hl
  rw [String.length_append, String.length_append] at hl
  have h1 : ("No pacts found for provider \"" : String).length = 29 := rfl
  have h2 : ("\"." : String).length = 2 := rfl
  have h3 : ("[]" : String).length = 2 := rfl
  rw [h1, h2, h3] at hl
  omega

/-- C5: a validation failure produces an error envelope whose message is
`Invalid arguments: ` followed by the comma-joined issues, each rendered
as the dot-joined field path and the issue message; calling
`get_pacticipant` without a `name` argument yields such an envelope naming
the `name` field. -/
theorem C5_invalid_arguments_envelope :
    (∀ issues : List ZodIssue,
        errorEnvelope (.zod issues) =
          { text := "Error: " ++ ("Invalid arguments: " ++
              String.intercalate ", "
                (issues.map fun issue =>
                  String.intercalate "." issue.path ++ ": " ++ issue.message)),
            isError := true }) ∧
    ∀ (proceed : String → List (String × String) → Except ThrownError ToolResult)
      (args : List (String × String)), args.lookup "name" = none →
      dispatch proceed "get_pacticipant" args =
        { text := "Error: Invalid arguments: name: Required", isError := true } := by
  refine ⟨fun issues => rfl, fun proceed args h => ?_⟩
  have hiss : zodParseIssues ["name"] args = [{ path := ["name"], message := "Required" }] := by
    unfold zodParseIssues
    have hn : (args.lookup "name").isNone = true := by rw [h]; rfl
    simp [List.filter_cons, hn]
  show (match zodParseIssues ["name"] args with
    | [] =>
      match proceed "get_pacticipant" args with
      | .ok result => result
      | .error err => errorEnvelope err
    | issue :: rest => errorEnvelope (.zod (issue :: rest))) =
      { text := "Error: Invalid arguments: name: Required", isError := true }
  rw [hiss]
  rfl

/-- Witness for C5: `get_pacticipant` invoked with an empty argument
object. -/
theorem C5_witness :
    dispatch (fun _ _ => .ok { text := "" }) "get_pacticipant" [] =
      { text := "Error: Invalid arguments: name: Required", isError := true } :=
  C5_invalid_arguments_envelope.2 (fun _ _ => .ok { text := "" }) [] rfl

/-- C6: a tool name outside the registry yields the unknown-tool error
envelope containing the literal name; `dispatch` is a total function, so
nothing is thrown past the boundary. -/
theorem C6_unknown_tool :
    ∀ (proceed : String → List (String × String) → Except ThrownError ToolResult)
      (toolName : String) (args : List (String × String)),
      toolRegistry.lookup toolName = none →
      dispatch proceed toolName args =
        { text := "Unknown tool: \"" ++ toolName ++ "\"", isError := true } := by
  intro proceed toolName args h
  unfold dispatch
  rw [h]

/-- Witness for C6 at a concrete unregistered name. -/
theorem C6_witness :
    dispatch (fun _ _ => .ok { text := "" }) "delete_everything" [] =
      { text := "Unknown tool: \"" ++ "delete_everything" ++ "\"", isError := true } :=
  C6_unknown_tool (fun _ _ => .ok { text := "" }) "delete_everything" [] rfl

/-- C2 counterexample: on a pact whose only modern state entry is named by
the empty string, the code returns `[]` while the claim's set of every
entry's name, sorted, is `[""]`. -/
theorem C2_counterexample :
    extractProviderStates emptyNamePact = [] ∧
    claimSortedStates emptyNamePact = [""] ∧
    extractProviderStates emptyNamePact ≠ claimSortedStates emptyNamePact := by
  refine ⟨by decide, by decide, by decide⟩

/-- C2 (amended): the extraction collects every non-empty modern state
name and every non-empty legacy state into one set and returns it as a
lexicographically sorted, duplicate-free sequence; on the worked example
the result is exactly ["a", "b"]. -/
theorem C2_extract_sorted_dedup :
    (∀ pact : Pact,
        extractProviderStates pact = amendedSortedStates pact ∧
        List.Sorted (· ≤ ·) (extractProviderStates pact) ∧
        (extractProviderStates pact).Nodup ∧
        ∀ s : String, s ∈ extractProviderStates pact ↔ s ≠ "" ∧ s ∈ pactStateNames pact) ∧
    extractProviderStates examplePactAB = ["a", "b"] := by
  refine ⟨fun pact => ⟨extract_eq_amended pact, sorted_extractProviderStates pact,
    nodup_extractProviderStates pact, fun s => mem_extractProviderStates pact⟩, by decide⟩

/-- C10: the empty string never appears in the extracted state list, even
when it occurs as a state name in the pact's interactions. -/
theorem C10_empty_name_dropped :
    (∀ pact : Pact, "" ∉ extractProviderStates pact) ∧
    extractProviderStates emptyAndNamedPact = ["s"] := by
  refine ⟨fun pact h => ?_, by decide⟩
  exact ((mem_extractProviderStates pact).mp h).1 rfl

end PactBrokerMcp
